import Mathlib

/-!
Verification of the warehouse slot optimiser (`warehouse_slot_optimiser.py`).

The development shallowly embeds the program: pandas cells that may be
missing (`NaN`/`None`) are modelled as `Option String` / `Option Int`,
pure Python functions become Lean functions, and the in-place mutation of
the `Used_Slots` column becomes explicit state passing of the prepared
location list.  Floating-point priority scores are modelled as `Option Int`
(the program only ever compares them, never does arithmetic on them);
`none` stands for a missing value (`NaN`).
-/

namespace WSO

/-! ### Python string primitives

`str.strip()`, `str.lower()`, `str.upper()` and the `in` operator, modelled
at the level of character lists.  The inputs are ASCII, so ASCII case
folding is faithful. -/

/-- The whitespace characters removed by Python's `str.strip()` (ASCII part). -/
def pySpace (c : Char) : Bool :=
  c = ' ' || c = '\t' || c = '\n' || c = '\r' || c = '\x0b' || c = '\x0c'

/-- Python `str.strip()`: drop whitespace from both ends. -/
def stripChars (l : List Char) : List Char :=
  ((l.dropWhile pySpace).reverse.dropWhile pySpace).reverse

/-- ASCII lower-casing of one character, as `str.lower()` does on ASCII input. -/
def lowChar (c : Char) : Char :=
  if 'A' ≤ c ∧ c ≤ 'Z' then Char.ofNat (c.toNat + 32) else c

/-- ASCII upper-casing of one character, as `str.upper()` does on ASCII input. -/
def upChar (c : Char) : Char :=
  if 'a' ≤ c ∧ c ≤ 'z' then Char.ofNat (c.toNat - 32) else c

/-- Python `str(x).strip().lower()` on a string value. -/
def pyLowerStrip (s : String) : List Char :=
  (stripChars s.data).map lowChar

/-- Python `str(x).strip().upper()` on a string value. -/
def pyUpperStrip (s : String) : List Char :=
  (stripChars s.data).map upChar

/-- Does `hay` start with `needle`? -/
def chStarts : List Char → List Char → Bool
  | [], _ => true
  | _ :: _, [] => false
  | n :: ns, h :: hs => decide (n = h) && chStarts ns hs

/-- Python's `needle in hay` for strings: contiguous occurrence. -/
def chContains (needle : List Char) : List Char → Bool
  | [] => needle.isEmpty
  | h :: hs => chStarts needle (h :: hs) || chContains needle hs

/-- A missing cell read with a `""` default, as `row.get(col, "")`.
Neither the empty string nor the text `"nan"` (what `str(float nan)`
yields) matches any of the constraint keywords, so the two missing modes
are interchangeable for every check below; the model uses `""`. -/
def orEmpty : Option String → String
  | none => ""
  | some s => s

/-- Python `str(x)` for a cell that may be `NaN`: a missing value prints as `"nan"`,
which is not one of the three recognised size classes. -/
def orNanText : Option String → String
  | none => "nan"
  | some s => s


/-- Keyword and code texts used by the checker. -/
def txtSmall : List Char := "Small".data

def txtMedium : List Char := "Medium".data

def txtLarge : List Char := "Large".data

def txtS : List Char := "S".data

def txtM : List Char := "M".data

def txtL : List Char := "L".data

def txtML : List Char := "M+L".data

def txtFragileOnly : List Char := "fragile-only".data

def txtFragile : List Char := "fragile".data

def txtChilled : List Char := "chilled".data

def txtHazard : List Char := "hazard".data

/-! ### Data model -/

/-- One row of the SKU table.  `score` is the `AI_Priority_Score_100`
column (`none` = missing/NaN). -/
structure Sku where
  sku_id : String
  score : Option Int
  size_class : Option String
  handling : Option String
  family : Option String
deriving DecidableEq, Repr

/-- One row of the location table. -/
structure Loc where
  location_id : String
  zone : Option String
  aisle : Option String
  rack : String
  level : Int
  allowed_size : Option String
  special : Option String
deriving DecidableEq, Repr

/-! ### Compatibility checker (from the source) -/

/-- The lookup `size_map.get(str(sku_size).strip(), None)` of `size_fits`. -/
def size_code (s : String) : Option (List Char) :=
  let t := stripChars s.data
  if t = txtSmall then some txtS
  else if t = txtMedium then some txtM
  else if t = txtLarge then some txtL
  else none

/-- The function `size_fits(sku_size, allowed)` from the source: `pd.isna(allowed)` is the
`none` case; an unknown SKU size does not block; otherwise the trimmed,
upper-cased allowed code must equal the SKU code or be the composite `M+L`. -/
def size_fits (sku_size allowed : Option String) : Bool :=
  match allowed with
  | none => true
  | some al =>
    match size_code (orNanText sku_size) with
    | none => true
    | some code =>
      let a := pyUpperStrip al
      decide (a = code) ||
        (decide (a = txtML) &&
          (decide (code = txtM) || decide (code = txtL)))

/-- The function `can_store(sku_row, loc_row)` from the source. -/
def can_store (sku : Sku) (loc : Loc) : Bool :=
  if !size_fits sku.size_class loc.allowed_size then false
  else
    let handling := pyLowerStrip (orEmpty sku.handling)
    let special := pyLowerStrip (orEmpty loc.special)
    if chContains txtFragileOnly special &&
        !(decide (handling = txtFragile)) then false
    else
      let family := pyLowerStrip (orEmpty sku.family)
      if chContains txtChilled special &&
          chContains txtHazard family then false
      else true

/-! ### The reference compatibility checker, written from the spec's words

The spec's rule 1 maps the SKU size class exactly as given (the spec's
"one of the three" reads literally, without trimming) and treats an
absent or empty allowed-size field as unrestricted.  Rules 2 and 3 are
containment / equality checks on the constraint texts; containment is
applied to the trimmed text, which cannot change whether the
whitespace-free keywords occur. -/

/-- Modelled from the spec: "map SKU size class {Small→S, Medium→M,
Large→L}; if SKU size is unrecognized (not one of the three), treat as
compatible". -/
def spec_size_code (s : Option String) : Option (List Char) :=
  match s with
  | none => none
  | some v =>
    if v = "Small" then some txtS
    else if v = "Medium" then some txtM
    else if v = "Large" then some txtL
    else none

/-- Modelled from the spec: rule 1 of the reference definition, with
"absent/empty location allowed-size is compatible with any SKU". -/
def spec_size_fits (sku_size allowed : Option String) : Bool :=
  match spec_size_code sku_size with
  | none => true
  | some code =>
    match allowed with
    | none => true
    | some al =>
      if al = "" then true
      else
        let a := pyUpperStrip al
        decide (a = code) ||
          (decide (a = txtML) &&
            (decide (code = txtM) || decide (code = txtL)))

/-- Modelled from the spec: the four-rule reference definition of claim C4,
rules evaluated in order, first failing rule rejects. -/
def spec_can_store (sku : Sku) (loc : Loc) : Bool :=
  if !spec_size_fits sku.size_class loc.allowed_size then false
  else if chContains txtFragileOnly (pyLowerStrip (orEmpty loc.special)) &&
      !(decide (pyLowerStrip (orEmpty sku.handling) = txtFragile)) then false
  else if chContains txtChilled (pyLowerStrip (orEmpty loc.special)) &&
      chContains txtHazard (pyLowerStrip (orEmpty sku.family)) then false
  else true

/-- Rule 1 as amended: the SKU size class is trimmed before mapping, and
only an absent (null) allowed-size field is auto-compatible — a present
empty allowed-size text is not treated as absent. -/
def amended_size_fits (sku_size allowed : Option String) : Bool :=
  match size_code (orNanText sku_size) with
  | none => true
  | some code =>
    match allowed with
    | none => true
    | some al =>
      let a := pyUpperStrip al
      decide (a = code) ||
        (decide (a = txtML) &&
          (decide (code = txtM) || decide (code = txtL)))

/-- The amended reference definition: claim C4's four rules with the
amended rule 1. -/
def spec_can_store_amended (sku : Sku) (loc : Loc) : Bool :=
  if !amended_size_fits sku.size_class loc.allowed_size then false
  else if chContains txtFragileOnly (pyLowerStrip (orEmpty loc.special)) &&
      !(decide (pyLowerStrip (orEmpty sku.handling) = txtFragile)) then false
  else if chContains txtChilled (pyLowerStrip (orEmpty loc.special)) &&
      chContains txtHazard (pyLowerStrip (orEmpty sku.family)) then false
  else true

/-! ### Stable sorting

`DataFrame.sort_values` on several columns lexsorts with a stable
(mergesort-based) algorithm; a stable sort by a total preorder has a
unique result, so it is modelled by insertion sort, which inserts each
element after the already-placed elements with an equal key. -/

/-- Insert `a` into `l` before the first element `b` with `le a b`;
elements with a key equal to `a`'s that are already in `l` stay in front. -/
def insertAsc (le : α → α → Bool) (a : α) : List α → List α
  | [] => [a]
  | b :: l => if le a b then a :: b :: l else b :: insertAsc le a l

/-- Stable ascending insertion sort. -/
def isortAsc (le : α → α → Bool) : List α → List α
  | [] => []
  | a :: l => insertAsc le a (isortAsc le l)

/-! ### Location ranker (`prepare_locations`) -/

/-- The mapping `zone_rank = {"Golden": 0, "Standard": 1, "Overflow": 2}` with
`.map(zone_rank).fillna(3)`: any other or missing zone ranks 3. -/
def zoneRankOf (z : Option String) : Nat :=
  match z with
  | none => 3
  | some v =>
    if v = "Golden" then 0
    else if v = "Standard" then 1
    else if v = "Overflow" then 2
    else 3

/-- The first contiguous run of digits in the text, as `re.search(r"(\d+)", s)`. -/
def firstDigitRun : List Char → Option (List Char)
  | [] => none
  | c :: cs =>
    if c.isDigit then some (c :: cs.takeWhile (fun d => d.isDigit))
    else firstDigitRun cs

/-- Numeric value of a digit run, as Python's `int`. -/
def digitsVal (ds : List Char) : Nat :=
  ds.foldl (fun n c => n * 10 + (c.toNat - 48)) 0

/-- The helper `aisle_num(a)`: 0 for a missing aisle, else the first digit run's value,
0 if the text holds no digit. -/
def aisleNumOf (a : Option String) : Nat :=
  match a with
  | none => 0
  | some s =>
    match firstDigitRun s.data with
    | none => 0
    | some ds => digitsVal ds

/-- A prepared location row: the raw location plus the helper columns
`ZoneRank`, `AisleNum` and the occupancy counter `Used_Slots`. -/
structure PLoc where
  loc : Loc
  zoneRank : Nat
  aisleNum : Nat
  used : Nat
deriving DecidableEq, Repr

/-- Build the helper columns for one location; `Used_Slots` starts at 0. -/
def mkPLoc (l : Loc) : PLoc :=
  { loc := l, zoneRank := zoneRankOf l.zone, aisleNum := aisleNumOf l.aisle, used := 0 }

/-- The ranking key `(ZoneRank, Level, AisleNum, Rack)`, compared
lexicographically, all components ascending. -/
def locKey (p : PLoc) : Nat ×ₗ (Int ×ₗ (Nat ×ₗ String)) :=
  toLex (p.zoneRank, toLex (p.loc.level, toLex (p.aisleNum, p.loc.rack)))

/-- Boolean comparison used to sort the prepared locations. -/
def plocLe (a b : PLoc) : Bool :=
  decide (locKey a ≤ locKey b)

/-- The function `prepare_locations(loc_df)`: add the helper columns, zero the counters
and stably sort by `(ZoneRank, Level, AisleNum, Rack)`, ascending. -/
def prepare_locations (ls : List Loc) : List PLoc :=
  isortAsc plocLe (ls.map mkPLoc)

/-! ### Assignment engine (`assign_skus`) -/

/-- The configured per-location capacity. -/
def MAX_SKUS_PER_LOCATION : Nat := 5

/-- The five location-identifying fields written into a placed record. -/
structure PlacedAt where
  zone : Option String
  aisle : Option String
  rack : String
  level : Int
  location_id : String
deriving DecidableEq, Repr

/-- One output row of `assign_skus`.  `placedAt = none` models the record
whose five location fields are all null. -/
structure Assignment where
  sku_id : String
  placedAt : Option PlacedAt
  priority_score : Option Int
  handling : Option String
  size_class : Option String
deriving DecidableEq, Repr

def mkPlacedAt (l : Loc) : PlacedAt :=
  { zone := l.zone, aisle := l.aisle, rack := l.rack, level := l.level,
    location_id := l.location_id }

/-- The record appended on a successful placement. -/
def placedRecord (s : Sku) (l : Loc) : Assignment :=
  { sku_id := s.sku_id, placedAt := some (mkPlacedAt l),
    priority_score := s.score, handling := s.handling, size_class := s.size_class }

/-- The record appended when no location qualifies. -/
def unplacedRecord (s : Sku) : Assignment :=
  { sku_id := s.sku_id, placedAt := none,
    priority_score := s.score, handling := s.handling, size_class := s.size_class }

/-- The inner `for loc_idx, loc_row in loc_df.iterrows()` loop: skip a full
location (`continue`), skip an incompatible one (`continue`), and on the
first remaining location return its fields and the state with that
location's counter incremented (`break`). -/
def scanLocs (s : Sku) : List PLoc → Option (Loc × List PLoc)
  | [] => none
  | p :: rest =>
    if MAX_SKUS_PER_LOCATION ≤ p.used then
      match scanLocs s rest with
      | none => none
      | some (l, rest') => some (l, p :: rest')
    else if !can_store s p.loc then
      match scanLocs s rest with
      | none => none
      | some (l, rest') => some (l, p :: rest')
    else
      some (p.loc, { p with used := p.used + 1 } :: rest)

/-- One iteration of the outer loop: emit a placed or an unplaced record
and thread the location state. -/
def assignSku (s : Sku) (locs : List PLoc) : Assignment × List PLoc :=
  match scanLocs s locs with
  | some (l, locs') => (placedRecord s l, locs')
  | none => (unplacedRecord s, locs)

/-- The outer loop over the (already sorted) SKUs. -/
def assignLoop : List Sku → List PLoc → List Assignment × List PLoc
  | [], locs => ([], locs)
  | s :: ss, locs =>
    let r := assignSku s locs
    let rest := assignLoop ss r.2
    (r.1 :: rest.1, rest.2)

/-- Ascending comparison on the priority scores; it is only ever applied
to rows whose score is present. -/
def scoreLe (a b : Sku) : Bool :=
  match a.score, b.score with
  | some x, some y => decide (x ≤ y)
  | _, _ => true

/-- The sort `sku_df.sort_values("AI_Priority_Score_100", ascending=False)`,
following pandas' `nargsort`: the rows with a score are reversed, sorted
ascending, and reversed again; rows with a missing score keep their input
order and go to the end (`na_position="last"`).  The source leaves the
sort kind at numpy's default introsort, which is unstable once more than
16 rows carry a score; the model fixes the stable order, which matches the
source whenever the scored rows number at most 16 or carry no duplicate
score.  `scoredDesc` is the descending arrangement of the rows that carry
a score: reverse, sort ascending (stable), reverse again, exactly as
`nargsort` computes a descending order. -/
def scoredDesc (skus : List Sku) : List Sku :=
  (isortAsc scoreLe ((skus.filter (fun s => s.score.isSome)).reverse)).reverse

def sortSkusDesc (skus : List Sku) : List Sku :=
  scoredDesc skus ++ skus.filter (fun s => s.score.isNone)

/-- The function `assign_skus(sku_df, loc_df)`: sort the SKUs by descending priority and
run the greedy loop.  The Python function returns the record list and
mutates `loc_df` in place; the model returns both. -/
def assign_skus (skus : List Sku) (locs : List PLoc) : List Assignment × List PLoc :=
  assignLoop (sortSkusDesc skus) locs

/-! ### Pipeline (`normalise_cols` and `main`) -/

/-- The SKU table: its column names and its rows.  `main` only ever reads
the columns through the fields of `Sku`, so the rows are modelled directly. -/
structure SkuTable where
  cols : List String
  rows : List Sku

structure LocTable where
  rows : List Loc

def requiredScoreCol : String := "AI_Priority_Score_100"

def schemaErrorMsg : String :=
  "SKU file must contain 'AI_Priority_Score_100'. Make sure you ran the AI agent and used 'sku_with_ai_priority.csv'."

/-- The function `normalise_cols`: raise `ValueError` when the required score column is
absent, else pass the tables on unchanged (`.copy()` has no observable
effect in the model). -/
def normalise_cols (st : SkuTable) (lt : LocTable) : Except String (SkuTable × LocTable) :=
  if requiredScoreCol ∈ st.cols then Except.ok (st, lt)
  else Except.error schemaErrorMsg

/-- The function `main()` without the file I/O and console reporting: validate the
schema, prepare the locations, assign, and return the output records.
An uncaught `ValueError` aborts the run before any assignment work, so
the error case carries no output at all. -/
def runMain (st : SkuTable) (lt : LocTable) : Except String (List Assignment) :=
  match normalise_cols st lt with
  | Except.error e => Except.error e
  | Except.ok (st', lt') =>
    Except.ok (assign_skus st'.rows (prepare_locations lt'.rows)).1

/-! ### Sample rows, used to instantiate the theorems on concrete inputs -/

def strGolden : String := "Golden"

def strA1 : String := "A1"

def strFragOnlyTxt : String := "Fragile-only"

def strMedium : String := "Medium"

def strStandard : String := "standard"

def strFood : String := "food"

def strSmall : String := "Small"

def strL : String := "L"


def emptyStr : String := ""

def paddedSmallStr : String := " Small"

/-- An unconstrained golden-zone location. -/
def wLoc : Loc :=
  { location_id := "L1", zone := some strGolden, aisle := some strA1, rack := "R1",
    level := 1, allowed_size := none, special := none }

/-- A fragile-only location. -/
def wLocFO : Loc :=
  { location_id := "F1", zone := none, aisle := none, rack := "R1",
    level := 1, allowed_size := none, special := some strFragOnlyTxt }

/-- A plain medium-size SKU with standard handling. -/
def wSku : Sku :=
  { sku_id := "K1", score := some 70, size_class := some strMedium,
    handling := some strStandard, family := some strFood }

def wSkuA : Sku :=
  { sku_id := "A", score := some 90, size_class := some strMedium,
    handling := some strStandard, family := some strFood }

def wSkuB : Sku :=
  { sku_id := "B", score := some 10, size_class := some strMedium,
    handling := some strStandard, family := some strFood }

/-- A prepared location with exactly one slot left. -/
def wTarget : PLoc :=
  { loc := wLoc, zoneRank := 0, aisleNum := 1, used := 4 }

/-- A prepared location whose counter reached the cap. -/
def wPFull : PLoc :=
  { loc := wLoc, zoneRank := 0, aisleNum := 1, used := 5 }

/-- Counterexample rows for the reference compatibility definition: a
recognised size against a present-but-empty allowed-size text, and a
padded size text against a restricting allowed-size code. -/
def cexSku1 : Sku :=
  { sku_id := "X1", score := none, size_class := some strSmall,
    handling := none, family := none }

def cexLoc1 : Loc :=
  { location_id := "Y1", zone := none, aisle := none, rack := "R",
    level := 0, allowed_size := some emptyStr, special := none }

def cexSku2 : Sku :=
  { sku_id := "X2", score := none, size_class := some paddedSmallStr,
    handling := none, family := none }

def cexLoc2 : Loc :=
  { location_id := "Y2", zone := none, aisle := none, rack := "R",
    level := 0, allowed_size := some strL, special := none }

def wColSkuId : String := "SKU_ID"

/-- A SKU table that lacks the required score column. -/
def wBadTable : SkuTable := { cols := [wColSkuId], rows := [wSku] }

def wLocTable : LocTable := { rows := [wLoc] }

/-! ### Lemmas about the stable sort -/

theorem insertAsc_perm (le : α → α → Bool) (a : α) (l : List α) :
    (insertAsc le a l).Perm (a :: l) := by
  induction l with
  | nil => exact List.Perm.refl _
  | cons b l ih =>
    simp only [insertAsc]
    split
    · exact List.Perm.refl _
    · exact (ih.cons b).trans (List.Perm.swap a b l)

theorem isortAsc_perm (le : α → α → Bool) (l : List α) :
    (isortAsc le l).Perm l := by
  induction l with
  | nil => exact List.Perm.refl _
  | cons a l ih =>
    simp only [isortAsc]
    exact (insertAsc_perm le a _).trans (ih.cons a)

theorem pairwise_insertAsc (le : α → α → Bool)
    (htot : ∀ x y, le x y = true ∨ le y x = true)
    (htrans : ∀ x y z, le x y = true → le y z = true → le x z = true)
    (a : α) (l : List α) (hl : l.Pairwise (fun x y => le x y = true)) :
    (insertAsc le a l).Pairwise (fun x y => le x y = true) := by
  induction l with
  | nil => simp [insertAsc]
  | cons b l ih =>
    rcases List.pairwise_cons.mp hl with ⟨hb, hl'⟩
    simp only [insertAsc]
    split
    · case isTrue h =>
      refine List.pairwise_cons.mpr ⟨?_, hl⟩
      intro c hc
      rcases List.mem_cons.mp hc with rfl | hc
      · exact h
      · exact htrans a b c h (hb c hc)
    · case isFalse h =>
      refine List.pairwise_cons.mpr ⟨?_, ih hl'⟩
      intro c hc
      rcases List.mem_cons.mp ((insertAsc_perm le a l).mem_iff.mp hc) with rfl | hc
      · rcases htot c b with h' | h'
        · exact absurd h' h
        · exact h'
      · exact hb c hc

theorem pairwise_isortAsc (le : α → α → Bool)
    (htot : ∀ x y, le x y = true ∨ le y x = true)
    (htrans : ∀ x y z, le x y = true → le y z = true → le x z = true)
    (l : List α) :
    (isortAsc le l).Pairwise (fun x y => le x y = true) := by
  induction l with
  | nil => simp [isortAsc]
  | cons a l ih => exact pairwise_insertAsc le htot htrans a _ ih

theorem filter_insertAsc (p : α → Bool) (le : α → α → Bool)
    (hp : ∀ x y, p x = true → p y = true → le x y = true)
    (a : α) (l : List α) :
    (insertAsc le a l).filter p =
      if p a = true then a :: l.filter p else l.filter p := by
  induction l with
  | nil =>
    simp only [insertAsc]
    by_cases hak : p a = true
    · simp [List.filter_cons, hak]
    · simp [List.filter_cons, hak]
  | cons b l ih =>
    simp only [insertAsc]
    by_cases hab : le a b = true
    · rw [if_pos hab, List.filter_cons, List.filter_cons]
    · rw [if_neg hab, List.filter_cons]
      by_cases hbk : p b = true
      · have hak : ¬ p a = true := by
          intro hak
          exact hab (hp a b hak hbk)
        simp [hbk, ih, hak, List.filter_cons]
      · simp [hbk, ih, List.filter_cons]

theorem filter_isortAsc (p : α → Bool) (le : α → α → Bool)
    (hp : ∀ x y, p x = true → p y = true → le x y = true)
    (l : List α) :
    (isortAsc le l).filter p = l.filter p := by
  induction l with
  | nil => rfl
  | cons a l ih =>
    simp only [isortAsc]
    rw [filter_insertAsc p le hp, ih, List.filter_cons]

/-! ### Lemmas about the inner scan -/

/-- The two `continue` tests of the inner loop, merged into one guard:
a location is taken exactly when it has room and is compatible. -/
theorem scanLocs_cons (s : Sku) (p : PLoc) (rest : List PLoc) :
    scanLocs s (p :: rest) =
      if p.used < MAX_SKUS_PER_LOCATION ∧ can_store s p.loc = true then
        some (p.loc, { p with used := p.used + 1 } :: rest)
      else
        (scanLocs s rest).map (fun pr => (pr.1, p :: pr.2)) := by
  simp only [scanLocs]
  by_cases h1 : MAX_SKUS_PER_LOCATION ≤ p.used
  · have hno : ¬(p.used < MAX_SKUS_PER_LOCATION ∧ can_store s p.loc = true) := by
      intro h
      omega
    rw [if_pos h1, if_neg hno]
    cases hsc : scanLocs s rest with
    | none => rfl
    | some pr =>
      obtain ⟨l, r⟩ := pr
      rfl
  · rw [if_neg h1]
    by_cases h2 : can_store s p.loc = true
    · have hyes : p.used < MAX_SKUS_PER_LOCATION ∧ can_store s p.loc = true :=
        ⟨by omega, h2⟩
      rw [if_pos hyes]
      simp [h2]
    · have h2' : can_store s p.loc = false := by
        cases hc : can_store s p.loc
        · rfl
        · exact absurd hc h2
      have hno : ¬(p.used < MAX_SKUS_PER_LOCATION ∧ can_store s p.loc = true) := by
        intro h
        exact h2 h.2
      rw [if_neg hno]
      simp only [h2', Bool.not_false, if_true]
      cases hsc : scanLocs s rest with
      | none => rfl
      | some pr =>
        obtain ⟨l, r⟩ := pr
        rfl

/-- The scan returns nothing exactly when no location both has room and is
compatible. -/
theorem scanLocs_eq_none_iff (s : Sku) (locs : List PLoc) :
    scanLocs s locs = none ↔
      ∀ p ∈ locs, ¬(p.used < MAX_SKUS_PER_LOCATION ∧ can_store s p.loc = true) := by
  induction locs with
  | nil => simp [scanLocs]
  | cons p rest ih =>
    rw [scanLocs_cons]
    by_cases h : p.used < MAX_SKUS_PER_LOCATION ∧ can_store s p.loc = true
    · rw [if_pos h]
      apply iff_of_false
      · simp
      · intro hall
        exact hall p (List.mem_cons_self p rest) h
    · rw [if_neg h, Option.map_eq_none', ih, List.forall_mem_cons]
      simp [h]

/-- What a successful scan did: the list splits as `pre ++ p :: post` with
every location of `pre` skipped (full or incompatible), `p` open and
compatible, and only `p`'s counter incremented. -/
theorem scanLocs_eq_some (s : Sku) : ∀ (locs locs' : List PLoc) (l : Loc),
    scanLocs s locs = some (l, locs') →
    ∃ pre p post, locs = pre ++ p :: post ∧
      locs' = pre ++ { p with used := p.used + 1 } :: post ∧
      p.used < MAX_SKUS_PER_LOCATION ∧ can_store s p.loc = true ∧ l = p.loc ∧
      ∀ q ∈ pre, ¬(q.used < MAX_SKUS_PER_LOCATION ∧ can_store s q.loc = true) := by
  intro locs
  induction locs with
  | nil =>
    intro locs' l h
    simp [scanLocs] at h
  | cons p rest ih =>
    intro locs' l h
    rw [scanLocs_cons] at h
    by_cases hc : p.used < MAX_SKUS_PER_LOCATION ∧ can_store s p.loc = true
    · rw [if_pos hc] at h
      have h' := Option.some.inj h
      have hl : l = p.loc := (congrArg Prod.fst h').symm
      have hr : locs' = { p with used := p.used + 1 } :: rest :=
        (congrArg Prod.snd h').symm
      exact ⟨[], p, rest, rfl, hr, hc.1, hc.2, hl, by simp⟩
    · rw [if_neg hc] at h
      obtain ⟨pr, hx, hy⟩ := Option.map_eq_some'.mp h
      obtain ⟨l0, r0⟩ := pr
      have hl : l = l0 := (congrArg Prod.fst hy).symm
      have hr : locs' = p :: r0 := (congrArg Prod.snd hy).symm
      obtain ⟨pre, q, post, h1, h2, h3, h4, h5, h6⟩ := ih r0 l0 hx
      refine ⟨p :: pre, q, post, by rw [h1]; rfl, ?_, h3, h4, hl.trans h5, ?_⟩
      · rw [hr, h2]
        rfl
      · intro q' hq'
        rcases List.mem_cons.mp hq' with rfl | hq'
        · exact hc
        · exact h6 q' hq'

/-- Skipped locations in front do not change the outcome of the scan. -/
theorem scanLocs_append (s : Sku) (pre rest : List PLoc)
    (hpre : ∀ q ∈ pre, ¬(q.used < MAX_SKUS_PER_LOCATION ∧ can_store s q.loc = true)) :
    scanLocs s (pre ++ rest) = (scanLocs s rest).map (fun pr => (pr.1, pre ++ pr.2)) := by
  induction pre with
  | nil =>
    simp only [List.nil_append]
    cases scanLocs s rest with
    | none => rfl
    | some pr => rfl
  | cons q pre' ih =>
    rw [List.cons_append, scanLocs_cons,
      if_neg (hpre q (List.mem_cons_self q pre')),
      ih (fun r hr => hpre r (List.mem_cons_of_mem q hr)), Option.map_map]
    cases scanLocs s rest with
    | none => rfl
    | some pr => rfl

/-! ### Lemmas about the outer loop -/

/-- Each iteration emits exactly one record, carrying the SKU's id and
score, whether placed or not. -/
theorem assignLoop_pairs (skus : List Sku) : ∀ locs : List PLoc,
    ((assignLoop skus locs).1).map (fun a => (a.sku_id, a.priority_score)) =
      skus.map (fun s => (s.sku_id, s.score)) := by
  induction skus with
  | nil => intro locs; rfl
  | cons s ss ih =>
    intro locs
    simp only [assignLoop, List.map_cons]
    refine congrArg₂ (· :: ·) ?_ (ih _)
    cases h : scanLocs s locs with
    | none => simp [assignSku, h, unplacedRecord]
    | some pr =>
      obtain ⟨l, r⟩ := pr
      simp [assignSku, h, placedRecord]

/-- The loop never changes the underlying location fields, only counters. -/
theorem assignSku_snd_map_loc (s : Sku) (locs : List PLoc) :
    ((assignSku s locs).2).map (fun p => p.loc) = locs.map (fun p => p.loc) := by
  cases h : scanLocs s locs with
  | none => simp [assignSku, h]
  | some pr =>
    obtain ⟨l, r⟩ := pr
    obtain ⟨pre, p, post, h1, h2, _, _, _, _⟩ := scanLocs_eq_some s locs r l h
    simp only [assignSku, h]
    rw [h1, h2]
    simp

theorem assignLoop_snd_map_loc (skus : List Sku) : ∀ locs : List PLoc,
    ((assignLoop skus locs).2).map (fun p => p.loc) = locs.map (fun p => p.loc) := by
  induction skus with
  | nil => intro locs; rfl
  | cons s ss ih =>
    intro locs
    simp only [assignLoop]
    exact (ih _).trans (assignSku_snd_map_loc s locs)

/-- Counters at or under the cap stay at or under the cap through one step. -/
theorem assignSku_used_le (s : Sku) (locs : List PLoc)
    (h : ∀ p ∈ locs, p.used ≤ MAX_SKUS_PER_LOCATION) :
    ∀ p ∈ (assignSku s locs).2, p.used ≤ MAX_SKUS_PER_LOCATION := by
  cases hs : scanLocs s locs with
  | none =>
    simp only [assignSku, hs]
    exact h
  | some pr =>
    obtain ⟨l, r⟩ := pr
    obtain ⟨pre, p, post, h1, h2, h3, _, _, _⟩ := scanLocs_eq_some s locs r l hs
    simp only [assignSku, hs]
    rw [h2]
    intro q hq
    rcases List.mem_append.mp hq with hq | hq
    · exact h q (h1 ▸ List.mem_append_left _ hq)
    · rcases List.mem_cons.mp hq with rfl | hq
      · simpa using h3
      · exact h q (h1 ▸ List.mem_append_right _ (List.mem_cons_of_mem p hq))

theorem assignLoop_used_le (skus : List Sku) : ∀ locs : List PLoc,
    (∀ p ∈ locs, p.used ≤ MAX_SKUS_PER_LOCATION) →
    ∀ p ∈ (assignLoop skus locs).2, p.used ≤ MAX_SKUS_PER_LOCATION := by
  induction skus with
  | nil => intro locs h; exact h
  | cons s ss ih =>
    intro locs h
    simp only [assignLoop]
    exact ih _ (assignSku_used_le s locs h)

/-- One step adds one to the total of the counters exactly when it placed. -/
theorem assignSku_used_sum (s : Sku) (locs : List PLoc) :
    (((assignSku s locs).2).map (fun p => p.used)).sum =
      ((locs.map (fun p => p.used)).sum) +
        (if ((assignSku s locs).1).placedAt.isSome then 1 else 0) := by
  cases hs : scanLocs s locs with
  | none => simp [assignSku, hs, unplacedRecord]
  | some pr =>
    obtain ⟨l, r⟩ := pr
    obtain ⟨pre, p, post, h1, h2, _, _, _, _⟩ := scanLocs_eq_some s locs r l hs
    simp only [assignSku, hs, placedRecord, Option.isSome_some, if_true]
    rw [h1, h2]
    simp [List.sum_append]
    omega

/-- Over the whole loop, the counters' total grows by exactly the number
of placed records. -/
theorem assignLoop_used_sum (skus : List Sku) : ∀ locs : List PLoc,
    (((assignLoop skus locs).2).map (fun p => p.used)).sum =
      ((locs.map (fun p => p.used)).sum) +
        (((assignLoop skus locs).1).filter (fun a => a.placedAt.isSome)).length := by
  induction skus with
  | nil => intro locs; rfl
  | cons s ss ih =>
    intro locs
    simp only [assignLoop, List.filter_cons]
    rw [ih ((assignSku s locs).2), assignSku_used_sum s locs]
    by_cases hp : ((assignSku s locs).1).placedAt.isSome = true
    · simp [hp]
      omega
    · simp [hp]

/-- Every placed record comes from an actual SKU of the processed list and
an actual location of the state, and that pair passed `can_store`. -/
theorem assignLoop_placed (skus : List Sku) : ∀ locs : List PLoc,
    ∀ a ∈ (assignLoop skus locs).1, ∀ pa, a.placedAt = some pa →
    ∃ s L, s ∈ skus ∧ L ∈ locs.map (fun p => p.loc) ∧
      a = placedRecord s L ∧ can_store s L = true := by
  induction skus with
  | nil =>
    intro locs a ha
    simp [assignLoop] at ha
  | cons s ss ih =>
    intro locs a ha pa hpa
    rcases List.mem_cons.mp ha with rfl | ha'
    · cases h : scanLocs s locs with
      | none =>
        rw [show (assignSku s locs).1 = unplacedRecord s by simp [assignSku, h]] at hpa
        simp [unplacedRecord] at hpa
      | some pr =>
        obtain ⟨l, r⟩ := pr
        obtain ⟨pre, p, post, h1, _, _, hcs, hl, _⟩ := scanLocs_eq_some s locs r l h
        refine ⟨s, p.loc, List.mem_cons_self s ss, ?_, ?_, hcs⟩
        · rw [h1]
          simp
        · rw [show (assignSku s locs).1 = placedRecord s l by simp [assignSku, h]]
          rw [hl]
    · obtain ⟨s', L, hs', hL, ha, hcs⟩ := ih ((assignSku s locs).2) a ha' pa hpa
      refine ⟨s', L, List.mem_cons_of_mem s hs', ?_, ha, hcs⟩
      rw [← assignSku_snd_map_loc s locs]
      exact hL

/-! ### Lemmas about the SKU sort -/

theorem scoredDesc_perm (skus : List Sku) :
    (scoredDesc skus).Perm (skus.filter (fun s => s.score.isSome)) :=
  (List.reverse_perm _).trans
    ((isortAsc_perm scoreLe _).trans (List.reverse_perm _))

theorem scoredDesc_length (skus : List Sku) :
    (scoredDesc skus).length = (skus.filter (fun s => s.score.isSome)).length :=
  (scoredDesc_perm skus).length_eq

theorem sortSkusDesc_perm (skus : List Sku) : (sortSkusDesc skus).Perm skus := by
  have h2 : skus.filter (fun s => s.score.isNone) =
      skus.filter (fun x => !x.score.isSome) :=
    List.filter_congr (fun x _ => by cases x.score <;> rfl)
  have h1 := (scoredDesc_perm skus).append
    (List.Perm.refl (skus.filter (fun s => s.score.isNone)))
  refine h1.trans ?_
  rw [h2]
  exact List.filter_append_perm (fun s => s.score.isSome) skus

theorem assign_skus_length (skus : List Sku) (locs : List PLoc) :
    ((assign_skus skus locs).1).length = skus.length := by
  have h1 := congrArg List.length (assignLoop_pairs (sortSkusDesc skus) locs)
  simp only [List.length_map] at h1
  exact h1.trans (sortSkusDesc_perm skus).length_eq

/-! ### The claims -/

/-- Claim C1: the assignment engine emits exactly one assignment record per
input SKU — placed or unplaced — so the output record count equals the
input SKU count; moreover the output records' (id, score) pairs are a
permutation of the input rows' (id, score) pairs. -/
theorem claim_C1_one_record_per_sku (skus : List Sku) (locs : List PLoc) :
    ((assign_skus skus locs).1).length = skus.length ∧
    (((assign_skus skus locs).1).map (fun a => (a.sku_id, a.priority_score))).Perm
      (skus.map (fun s => (s.sku_id, s.score))) := by
  refine ⟨assign_skus_length skus locs, ?_⟩
  have hp : ((assign_skus skus locs).1).map (fun a => (a.sku_id, a.priority_score)) =
      (sortSkusDesc skus).map (fun s => (s.sku_id, s.score)) :=
    assignLoop_pairs (sortSkusDesc skus) locs
  rw [hp]
  exact (sortSkusDesc_perm skus).map _

/-- Claim C6: the Location Ranker orders every location list ascending by
the key (zone rank, level, aisle numeric token, rack), locations with
equal full keys keep their input relative order, and the output is a
permutation of the prepared input rows. -/
theorem claim_C6_location_ranker (ls : List Loc) :
    ((prepare_locations ls).Pairwise (fun a b => locKey a ≤ locKey b)) ∧
    (∀ k, (prepare_locations ls).filter (fun p => decide (locKey p = k)) =
      (ls.map mkPLoc).filter (fun p => decide (locKey p = k))) ∧
    (prepare_locations ls).Perm (ls.map mkPLoc) := by
  refine ⟨?_, ?_, isortAsc_perm plocLe (ls.map mkPLoc)⟩
  · have h := pairwise_isortAsc plocLe
      (fun x y => by
        rcases le_total (locKey x) (locKey y) with h | h
        · exact Or.inl (decide_eq_true h)
        · exact Or.inr (decide_eq_true h))
      (fun x y z hxy hyz =>
        decide_eq_true (le_trans (of_decide_eq_true hxy) (of_decide_eq_true hyz)))
      (ls.map mkPLoc)
    exact h.imp (fun hab => of_decide_eq_true hab)
  · intro k
    exact filter_isortAsc (fun q => decide (locKey q = k)) plocLe
      (fun x y hx hy => decide_eq_true
        (le_of_eq ((of_decide_eq_true hx).trans (of_decide_eq_true hy).symm)))
      (ls.map mkPLoc)

/-- Claim C10: a SKU with a missing priority score is not rejected: the run
still emits one record per SKU, the records after the scored block are
exactly the missing-score SKUs in input order with a null `Priority_Score`,
and every record before that block carries a present score. -/
theorem claim_C10_missing_score_last (skus : List Sku) (locs : List PLoc) :
    ((assign_skus skus locs).1).length = skus.length ∧
    ((((assign_skus skus locs).1).drop
        ((skus.filter (fun s => s.score.isSome)).length)).map
      (fun a => (a.sku_id, a.priority_score)) =
      (skus.filter (fun s => s.score.isNone)).map (fun s => (s.sku_id, s.score))) ∧
    (∀ a ∈ ((assign_skus skus locs).1).drop
        ((skus.filter (fun s => s.score.isSome)).length),
      a.priority_score = none) ∧
    (∀ a ∈ ((assign_skus skus locs).1).take
        ((skus.filter (fun s => s.score.isSome)).length),
      a.priority_score.isSome = true) := by
  have hp : ((assign_skus skus locs).1).map (fun a => (a.sku_id, a.priority_score)) =
      (sortSkusDesc skus).map (fun s => (s.sku_id, s.score)) :=
    assignLoop_pairs (sortSkusDesc skus) locs
  have hsplit : (sortSkusDesc skus).map (fun s => (s.sku_id, s.score)) =
      (scoredDesc skus).map (fun s => (s.sku_id, s.score)) ++
        (skus.filter (fun s => s.score.isNone)).map (fun s => (s.sku_id, s.score)) := by
    rw [← List.map_append]
    rfl
  have hlen : (skus.filter (fun s => s.score.isSome)).length =
      ((scoredDesc skus).map (fun s => (s.sku_id, s.score))).length := by
    rw [List.length_map, scoredDesc_length]
  have hdrop : (((assign_skus skus locs).1).drop
      ((skus.filter (fun s => s.score.isSome)).length)).map
        (fun a => (a.sku_id, a.priority_score)) =
      (skus.filter (fun s => s.score.isNone)).map (fun s => (s.sku_id, s.score)) := by
    rw [List.map_drop, hp, hsplit, hlen]
    exact List.drop_left _ _
  have htake : (((assign_skus skus locs).1).take
      ((skus.filter (fun s => s.score.isSome)).length)).map
        (fun a => (a.sku_id, a.priority_score)) =
      (scoredDesc skus).map (fun s => (s.sku_id, s.score)) := by
    rw [List.map_take, hp, hsplit, hlen]
    exact List.take_left _ _
  refine ⟨assign_skus_length skus locs, hdrop, ?_, ?_⟩
  · intro a ha
    have hmem : (a.sku_id, a.priority_score) ∈
        (skus.filter (fun s => s.score.isNone)).map (fun s => (s.sku_id, s.score)) := by
      rw [← hdrop]
      exact List.mem_map_of_mem _ ha
    obtain ⟨s, hs, hpair⟩ := List.mem_map.mp hmem
    have h2 : a.priority_score = s.score := (congrArg Prod.snd hpair).symm
    rw [h2]
    exact Option.isNone_iff_eq_none.mp (List.mem_filter.mp hs).2
  · intro a ha
    have hmem : (a.sku_id, a.priority_score) ∈
        (scoredDesc skus).map (fun s => (s.sku_id, s.score)) := by
      rw [← htake]
      exact List.mem_map_of_mem _ ha
    obtain ⟨s, hs, hpair⟩ := List.mem_map.mp hmem
    have h2 : a.priority_score = s.score := (congrArg Prod.snd hpair).symm
    rw [h2]
    exact (List.mem_filter.mp ((scoredDesc_perm skus).mem_iff.mp hs)).2

/-- Claim C2: every assignment record that names a location was produced
from an input SKU row and a location row of the state, its fields are
exactly theirs, and that pair passed `can_store`. -/
theorem claim_C2_placed_records_compatible (skus : List Sku) (locs : List PLoc) :
    ∀ a ∈ (assign_skus skus locs).1, ∀ pa, a.placedAt = some pa →
    ∃ s L, s ∈ skus ∧ L ∈ locs.map (fun p => p.loc) ∧
      a = placedRecord s L ∧ pa = mkPlacedAt L ∧ can_store s L = true := by
  intro a ha pa hpa
  obtain ⟨s, L, hs, hL, haeq, hcs⟩ :=
    assignLoop_placed (sortSkusDesc skus) locs a ha pa hpa
  refine ⟨s, L, (sortSkusDesc_perm skus).mem_iff.mp hs, hL, haeq, ?_, hcs⟩
  rw [haeq] at hpa
  exact (Option.some.inj hpa).symm

/-- Witness for claim C2: a concrete run in which the single SKU is placed
at the single location, and the theorem applied to that placed record. -/
theorem claim_C2_placed_records_compatible_witness :
    (placedRecord wSku wLoc) ∈ (assign_skus [wSku] [mkPLoc wLoc]).1 ∧
    (∃ s L, s ∈ [wSku] ∧ L ∈ [mkPLoc wLoc].map (fun p => p.loc) ∧
      placedRecord wSku wLoc = placedRecord s L ∧
      mkPlacedAt wLoc = mkPlacedAt L ∧ can_store s L = true) :=
  ⟨by decide,
   claim_C2_placed_records_compatible [wSku] [mkPLoc wLoc]
     (placedRecord wSku wLoc) (by decide) (mkPlacedAt wLoc) (by decide)⟩

/-- Claim C3: counters start at zero after `prepare_locations`; from any
state within the cap the loop keeps every counter at or under the cap
(so no counter ever exceeds 5 during or after a run); and over a run the
counters' total grows by exactly one per placed record and by nothing
else. -/
theorem claim_C3_capacity_never_exceeded
    (ls : List Loc) (skus : List Sku) (locs : List PLoc) :
    (∀ p ∈ prepare_locations ls, p.used = 0) ∧
    ((∀ p ∈ locs, p.used ≤ MAX_SKUS_PER_LOCATION) →
      ∀ p ∈ (assignLoop skus locs).2, p.used ≤ MAX_SKUS_PER_LOCATION) ∧
    ((((assign_skus skus locs).2).map (fun p => p.used)).sum =
      ((locs.map (fun p => p.used)).sum) +
        (((assign_skus skus locs).1).filter (fun a => a.placedAt.isSome)).length) := by
  refine ⟨?_, assignLoop_used_le skus locs, assignLoop_used_sum (sortSkusDesc skus) locs⟩
  intro p hp
  have hmem := (isortAsc_perm plocLe (ls.map mkPLoc)).mem_iff.mp hp
  obtain ⟨l, _, rfl⟩ := List.mem_map.mp hmem
  rfl

/-- Witness for claim C3 at a concrete one-SKU, one-location run. -/
theorem claim_C3_capacity_never_exceeded_witness :
    (∀ p ∈ prepare_locations [wLoc], p.used = 0) ∧
    (∀ p ∈ (assignLoop [wSku] [mkPLoc wLoc]).2, p.used ≤ MAX_SKUS_PER_LOCATION) ∧
    ((((assign_skus [wSku] [mkPLoc wLoc]).2).map (fun p => p.used)).sum =
      (([mkPLoc wLoc].map (fun p => p.used)).sum) +
        (((assign_skus [wSku] [mkPLoc wLoc]).1).filter
          (fun a => a.placedAt.isSome)).length) :=
  ⟨(claim_C3_capacity_never_exceeded [wLoc] [wSku] [mkPLoc wLoc]).1,
   (claim_C3_capacity_never_exceeded [wLoc] [wSku] [mkPLoc wLoc]).2.1 (by decide),
   (claim_C3_capacity_never_exceeded [wLoc] [wSku] [mkPLoc wLoc]).2.2⟩

/-- Claim C7: a full location at the head of the sequence is skipped and
the scan continues unchanged behind it; the emitted record has null
location fields exactly when no location of the sequence has both room
and compatibility; and in that unplaced case the state is untouched. -/
theorem claim_C7_skip_full_and_unplaced (s : Sku) (locs : List PLoc) (p : PLoc) :
    (MAX_SKUS_PER_LOCATION ≤ p.used →
      scanLocs s (p :: locs) = (scanLocs s locs).map (fun pr => (pr.1, p :: pr.2))) ∧
    (((assignSku s locs).1).placedAt = none ↔
      ∀ q ∈ locs, ¬(q.used < MAX_SKUS_PER_LOCATION ∧ can_store s q.loc = true)) ∧
    (((assignSku s locs).1).placedAt = none → (assignSku s locs).2 = locs) := by
  refine ⟨?_, ?_, ?_⟩
  · intro hfull
    have hno : ¬(p.used < MAX_SKUS_PER_LOCATION ∧ can_store s p.loc = true) := by
      intro h
      have := h.1
      omega
    rw [scanLocs_cons, if_neg hno]
  · rw [← scanLocs_eq_none_iff]
    cases h : scanLocs s locs with
    | none => simp [assignSku, h, unplacedRecord]
    | some pr =>
      obtain ⟨l, r⟩ := pr
      simp [assignSku, h, placedRecord]
  · intro hnone
    have hn : scanLocs s locs = none := by
      cases h : scanLocs s locs with
      | none => rfl
      | some pr =>
        obtain ⟨l, r⟩ := pr
        rw [show ((assignSku s locs).1) = placedRecord s l from by
          simp [assignSku, h]] at hnone
        simp [placedRecord] at hnone
    simp [assignSku, hn]

/-- Witness for claim C7: a full location in front of a fragile-only
location that rejects the standard-handling SKU; the SKU ends unplaced
and the state is unchanged. -/
theorem claim_C7_skip_full_and_unplaced_witness :
    (scanLocs wSku (wPFull :: [mkPLoc wLocFO]) =
      (scanLocs wSku [mkPLoc wLocFO]).map (fun pr => (pr.1, wPFull :: pr.2))) ∧
    ((assignSku wSku [mkPLoc wLocFO]).1).placedAt = none ∧
    (assignSku wSku [mkPLoc wLocFO]).2 = [mkPLoc wLocFO] :=
  ⟨(claim_C7_skip_full_and_unplaced wSku [mkPLoc wLocFO] wPFull).1 (by decide),
   ((claim_C7_skip_full_and_unplaced wSku [mkPLoc wLocFO] wPFull).2.1).mpr (by decide),
   (claim_C7_skip_full_and_unplaced wSku [mkPLoc wLocFO] wPFull).2.2
     (((claim_C7_skip_full_and_unplaced wSku [mkPLoc wLocFO] wPFull).2.1).mpr
       (by decide))⟩

/-- Claim C8: when the required priority-score column is absent from the
SKU table, the run aborts with the descriptive schema message and produces
no output at all. -/
theorem claim_C8_schema_abort (st : SkuTable) (lt : LocTable)
    (h : requiredScoreCol ∉ st.cols) :
    runMain st lt = Except.error schemaErrorMsg := by
  simp [runMain, normalise_cols, h]

/-- Witness for claim C8: a table whose only column is `SKU_ID`. -/
theorem claim_C8_schema_abort_witness :
    requiredScoreCol ∉ wBadTable.cols ∧
    runMain wBadTable wLocTable = Except.error schemaErrorMsg :=
  ⟨by decide, claim_C8_schema_abort wBadTable wLocTable (by decide)⟩

/-- Counterexample to claim C4: `can_store` differs from the spec's
four-rule reference definition.  A `Small` SKU against a present-but-empty
allowed-size text is rejected by the code (`pd.isna("")` is false, so the
empty text reaches the equality checks) but accepted by the reference; a
SKU whose size text is `" Small"` is trimmed and recognised by the code
(so the `L` restriction rejects it) but unrecognised — hence accepted —
by the reference. -/
theorem claim_C4_counterexample :
    can_store cexSku1 cexLoc1 ≠ spec_can_store cexSku1 cexLoc1 ∧
    can_store cexSku2 cexLoc2 ≠ spec_can_store cexSku2 cexLoc2 := by
  decide

/-- Claim C4 as amended: `can_store` equals the four-rule reference
definition in which rule 1 trims the SKU size class before mapping and
only an absent (null) allowed-size field — not a present empty text — is
auto-compatible. -/
theorem claim_C4_amended_reference_equal (sku : Sku) (loc : Loc) :
    can_store sku loc = spec_can_store_amended sku loc := by
  have hsf : size_fits sku.size_class loc.allowed_size =
      amended_size_fits sku.size_class loc.allowed_size := by
    cases ha : loc.allowed_size with
    | none =>
      cases h : size_code (orNanText sku.size_class) <;>
        simp [size_fits, amended_size_fits, h]
    | some al =>
      cases h : size_code (orNanText sku.size_class) <;>
        simp [size_fits, amended_size_fits, h]
  unfold can_store spec_can_store_amended
  rw [hsf]

/-- Claim C9: priority monotonicity under scarcity.  When SKU `A` has a
strictly higher score than SKU `B`, exactly one location of the ranked
sequence is open and compatible (for both), and that location has exactly
one slot left, the engine places `A` there and records `B` as unplaced —
whatever the input order of the two SKUs. -/
theorem claim_C9_priority_monotonic
    (A B : Sku) (sa sb : Int) (pre post : List PLoc) (t : PLoc) (skus : List Sku)
    (hA : A.score = some sa) (hB : B.score = some sb) (hab : sb < sa)
    (hsk : skus = [A, B] ∨ skus = [B, A])
    (hcap : t.used + 1 = MAX_SKUS_PER_LOCATION)
    (hAt : can_store A t.loc = true) (hBt : can_store B t.loc = true)
    (hothersA : ∀ q ∈ pre ++ post,
      ¬(q.used < MAX_SKUS_PER_LOCATION ∧ can_store A q.loc = true))
    (hothersB : ∀ q ∈ pre ++ post,
      ¬(q.used < MAX_SKUS_PER_LOCATION ∧ can_store B q.loc = true)) :
    (assign_skus skus (pre ++ t :: post)).1 =
      [placedRecord A t.loc, unplacedRecord B] := by
  have hA' : A.score.isSome = true := by rw [hA]; rfl
  have hB' : B.score.isSome = true := by rw [hB]; rfl
  have hA'' : A.score.isNone = false := by rw [hA]; rfl
  have hB'' : B.score.isNone = false := by rw [hB]; rfl
  have hBA : scoreLe B A = true := by
    simp only [scoreLe, hA, hB]
    exact decide_eq_true (le_of_lt hab)
  have hAB : scoreLe A B = false := by
    simp only [scoreLe, hA, hB]
    exact decide_eq_false (not_le_of_gt hab)
  have hsort : sortSkusDesc skus = [A, B] := by
    rcases hsk with rfl | rfl
    · simp [sortSkusDesc, scoredDesc, List.filter_cons, hA', hB', hA'', hB'',
        isortAsc, insertAsc, hBA]
    · simp [sortSkusDesc, scoredDesc, List.filter_cons, hA', hB', hA'', hB'',
        isortAsc, insertAsc, hAB]
  have ht_open : t.used < MAX_SKUS_PER_LOCATION := by omega
  have hscanA : scanLocs A (pre ++ t :: post) =
      some (t.loc, pre ++ { t with used := t.used + 1 } :: post) := by
    rw [scanLocs_append A pre _ (fun q hq => hothersA q (List.mem_append_left _ hq)),
      scanLocs_cons, if_pos ⟨ht_open, hAt⟩]
    rfl
  have hscanB : scanLocs B (pre ++ { t with used := t.used + 1 } :: post) = none := by
    rw [scanLocs_eq_none_iff]
    intro q hq
    rcases List.mem_append.mp hq with hq | hq
    · exact hothersB q (List.mem_append_left _ hq)
    · rcases List.mem_cons.mp hq with rfl | hq
      · intro hcontra
        have h5 : t.used + 1 < MAX_SKUS_PER_LOCATION := hcontra.1
        omega
      · exact hothersB q (List.mem_append_right _ hq)
  have e1 : assignSku A (pre ++ t :: post) =
      (placedRecord A t.loc, pre ++ { t with used := t.used + 1 } :: post) := by
    simp [assignSku, hscanA]
  have e2 : assignSku B (pre ++ { t with used := t.used + 1 } :: post) =
      (unplacedRecord B, pre ++ { t with used := t.used + 1 } :: post) := by
    simp [assignSku, hscanB]
  show (assignLoop (sortSkusDesc skus) (pre ++ t :: post)).1 = _
  rw [hsort]
  simp [assignLoop, e1, e2]

/-- Witness for claim C9: the lower-priority SKU comes first in the input,
the single location has one slot left; the engine still places the
higher-priority SKU and leaves the other unplaced. -/
theorem claim_C9_priority_monotonic_witness :
    (wSkuA.score = some 90 ∧ wSkuB.score = some 10 ∧ (10:Int) < 90 ∧
      wTarget.used + 1 = MAX_SKUS_PER_LOCATION ∧
      can_store wSkuA wTarget.loc = true ∧ can_store wSkuB wTarget.loc = true) ∧
    (assign_skus [wSkuB, wSkuA] [wTarget]).1 =
      [placedRecord wSkuA wTarget.loc, unplacedRecord wSkuB] :=
  ⟨by decide,
   claim_C9_priority_monotonic wSkuA wSkuB 90 10 [] [] wTarget [wSkuB, wSkuA]
     (by decide) (by decide) (by decide) (Or.inr rfl) (by decide)
     (by decide) (by decide) (by decide) (by decide)⟩

end WSO
